import Mathlib

set_option autoImplicit false

namespace Viwoods

/-! Shallow embedding of the Viwoods Notes Importer plugin
(tuannvm/viwoods-obsidian).  Character strings are modelled as lists of
characters; JavaScript numbers that only carry data are modelled as Nat,
Int or Rat.  Operations of external collaborators (the vault, the file
system, the Swift OCR tool) are modelled as oracles passed in explicit
environment structures; an operation that can throw is modelled by an
oracle field describing its outcome, and a TypeScript try/catch becomes a
case split on that field. -/

/-- Strings are lists of characters. -/
abbrev Str := List Char

/-- Coerce a Lean string literal to the Str model. -/
def str (s : String) : Str := s.data

/-- Decimal rendering of a natural number, as in JS template interpolation. -/
def natStr (n : Nat) : Str := (Nat.repr n).data

/-- Whitespace characters recognised by the JS regex class \s (ASCII part). -/
def isWsChar (c : Char) : Bool :=
  c == ' ' || c == '\t' || c == '\n' || c == '\r' || c == '\x0b' || c == '\x0c'

/-- Does the string start with the given pattern (String.prototype.startsWith)? -/
def strStartsWith : Str → Str → Bool
  | _, [] => true
  | [], _ :: _ => false
  | c :: cs, p :: ps => c == p && strStartsWith cs ps

/-- Index of the first occurrence of a pattern in a string, if any. -/
def findSubIdx : Str → Str → Option Nat
  | [], pat => if strStartsWith [] pat then some 0 else none
  | c :: cs, pat =>
    if strStartsWith (c :: cs) pat then some 0
    else (findSubIdx cs pat).map (· + 1)

/-- Substring containment (String.prototype.includes). -/
def containsSub (s pat : Str) : Bool := (findSubIdx s pat).isSome

/-- Does the string end with the given pattern (String.prototype.endsWith)? -/
def strEndsWith (s pat : Str) : Bool := strStartsWith s.reverse pat.reverse

/-- Both-ends whitespace trim (String.prototype.trim). -/
def trimStr (s : Str) : Str :=
  ((s.dropWhile isWsChar).reverse.dropWhile isWsChar).reverse

/-- Last component of a slash-separated path (s.split ++ last element). -/
def lastComponent (s : Str) : Str :=
  (s.reverse.takeWhile (fun c => c != '/')).reverse

/-! ### Change detector / reconciler

Modelled from the spec: the Change Detector component (spec section 4.6)
and the PageChange and ImportSummary shapes of src/src/types.ts.  The
detector implementation itself (the importer service) is not among the
provided source files, so its algorithm follows the spec text: a page
absent from the manifest is new; present with a different image hash it
is modified; present with an equal hash but a different audio-presence
flag it is modified with hasAudioChange; present with equal hash and
equal audio flag it is unchanged; manifest pages absent from the new
book are deleted. -/

/-- The four page classifications of types.ts PageChange.type. -/
inductive ChangeType
  | new
  | modified
  | unchanged
  | deleted
deriving DecidableEq

/-- One page-change record (types.ts PageChange). -/
structure PageChange where
  pageNum : Nat
  type : ChangeType
  oldHash : Option Str
  newHash : Option Str
  hasAudioChange : Bool
deriving DecidableEq

/-- One page of a freshly decoded book, reduced to the fields the change
detector consults: page number, image content hash, audio presence. -/
structure DecodedPage where
  pageNum : Nat
  imageHash : Str
  hasAudio : Bool
deriving DecidableEq

/-- One entry of ImportManifest.importedPages (types.ts), reduced to the
fields the change detector consults. -/
structure ManifestEntry where
  imageHash : Str
  hasAudio : Option Bool
deriving DecidableEq

/-- The persisted per-book import manifest (types.ts ImportManifest),
reduced to the importedPages mapping, modelled as an association list. -/
structure Manifest where
  importedPages : List (Nat × ManifestEntry)
deriving DecidableEq

/-- Lookup of a page number in the importedPages mapping. -/
def findEntry (p : Nat) : List (Nat × ManifestEntry) → Option ManifestEntry
  | [] => none
  | (k, e) :: rest => if k = p then some e else findEntry p rest

/-- Modelled from the spec: classification of a single decoded page
against the prior manifest (spec section 4.6, steps 1-2). -/
def classifyPage (m : Manifest) (pg : DecodedPage) : PageChange :=
  match findEntry pg.pageNum m.importedPages with
  | none => ⟨pg.pageNum, .new, none, some pg.imageHash, false⟩
  | some e =>
    if pg.imageHash ≠ e.imageHash then
      ⟨pg.pageNum, .modified, some e.imageHash, some pg.imageHash, false⟩
    else if pg.hasAudio ≠ e.hasAudio.getD false then
      ⟨pg.pageNum, .modified, some e.imageHash, some pg.imageHash, true⟩
    else
      ⟨pg.pageNum, .unchanged, some e.imageHash, some pg.imageHash, false⟩

/-- Modelled from the spec: the full change-detection pass (spec section
4.6): every decoded page is classified, and every manifest page absent
from the new book is reported deleted. -/
def detectPageChanges (book : List DecodedPage) (m : Manifest) : List PageChange :=
  book.map (classifyPage m) ++
    (m.importedPages.filter
        (fun pe => ! book.any (fun pg => pg.pageNum == pe.1))).map
      (fun pe => ⟨pe.1, .deleted, some pe.2.imageHash, none, false⟩)

/-- The run summary shape (types.ts ImportSummary); errors carry a page
number and a message. -/
structure ImportSummary where
  totalPages : Nat
  newPages : List Nat
  modifiedPages : List Nat
  unchangedPages : List Nat
  deletedPages : List Nat
  errors : List (Nat × Str)
deriving DecidableEq

/-- Page numbers of the change records of one classification. -/
def pagesOfType (cs : List PageChange) (t : ChangeType) : List Nat :=
  (cs.filter (fun c => c.type == t)).map (fun c => c.pageNum)

/-- Modelled from the spec: the ImportSummary produced by one
change-detection pass (spec section 4.6 output). -/
def buildSummary (book : List DecodedPage) (m : Manifest) : ImportSummary :=
  let cs := detectPageChanges book m
  ⟨book.length, pagesOfType cs .new, pagesOfType cs .modified,
    pagesOfType cs .unchanged, pagesOfType cs .deleted, []⟩

/-- The change record the detector emits for page number p, observed by
searching the emitted list. -/
def changeFor (book : List DecodedPage) (m : Manifest) (p : Nat) : Option PageChange :=
  (detectPageChanges book m).find? (fun c => c.pageNum == p)

/-! ### Import pipeline (selective re-import)

Modelled from the spec: the importer service that drives selective
re-import is not among the provided source files.  Spec sections 4.6 and
3: only new and modified pages are re-rendered and re-written, unchanged
pages are skipped entirely, and after a run every key of
importedPages records the hash and audio flag of the page as written. -/

/-- Result of one import run: the summary, the manifest written back at
the end of the run, and the page numbers whose outputs were written. -/
structure ImportRunResult where
  summary : ImportSummary
  manifest : Manifest
  writes : List Nat
deriving DecidableEq

/-- Modelled from the spec: the manifest persisted after a successful
run records, for every page of the decoded book, the freshly computed
image hash and audio-presence flag (spec section 3, ImportManifest
invariant). -/
def manifestAfter (book : List DecodedPage) : Manifest :=
  ⟨book.map (fun pg => (pg.pageNum, ⟨pg.imageHash, some pg.hasAudio⟩))⟩

/-- Modelled from the spec: one import run classifies the decoded book
against the prior manifest, writes only the new and modified pages, and
persists the updated manifest (spec sections 4.6 and 5). -/
def runImport (book : List DecodedPage) (m : Manifest) : ImportRunResult :=
  let s := buildSummary book m
  ⟨s, manifestAfter book, s.newPages ++ s.modifiedPages⟩

/-! ### Stroke decoder and per-page processing

Modelled from the spec: the binary stroke decoder and the page processor
are not among the provided source files.  Spec section 4.2: a stroke
blob is a sequence of fixed-layout records (little-endian fixed-width
numeric fields); a record whose declared point count would read past the
buffer end is rejected, recoverably at page granularity; a page whose
stroke decode fails still yields its image and audio outputs and only
its SVG rendering is skipped, with the failure surfaced in the import
summary. -/

/-- One decoded stroke point (x, y, pressure), each a 32-bit LE field. -/
structure StrokePoint where
  x : Nat
  y : Nat
  pressure : Nat
deriving DecidableEq

/-- One decoded pen stroke: pen id plus ordered point sequence. -/
structure Stroke where
  penId : Nat
  points : List StrokePoint
deriving DecidableEq

/-- Read one 32-bit little-endian value from a byte list. -/
def readLE32 : List Nat → Option (Nat × List Nat)
  | b0 :: b1 :: b2 :: b3 :: rest =>
    some (b0 + 256 * b1 + 65536 * b2 + 16777216 * b3, rest)
  | _ => none

/-- Read one stroke point (three 32-bit LE fields). -/
def readPoint (bs : List Nat) : Option (StrokePoint × List Nat) := do
  let (x, r1) ← readLE32 bs
  let (y, r2) ← readLE32 r1
  let (p, r3) ← readLE32 r2
  pure (⟨x, y, p⟩, r3)

/-- Read the declared number of stroke points; fails when the declared
count would read past the end of the buffer. -/
def readPoints : Nat → List Nat → Option (List StrokePoint × List Nat)
  | 0, bs => some ([], bs)
  | n + 1, bs => do
    let (pt, r1) ← readPoint bs
    let (pts, r2) ← readPoints n r1
    pure (pt :: pts, r2)

/-- Fuelled record loop of the stroke decoder: each record is a pen id,
a declared point count, then that many points. -/
def decodeRecsAux : Nat → List Nat → Option (List Stroke)
  | _, [] => some []
  | 0, _ :: _ => none
  | fuel + 1, b :: bs => do
    let (pen, r1) ← readLE32 (b :: bs)
    let (cnt, r2) ← readLE32 r1
    let (pts, r3) ← readPoints cnt r2
    let rest ← decodeRecsAux fuel r3
    pure (⟨pen, pts⟩ :: rest)

/-- Modelled from the spec: decode one stroke blob into a StrokeSet;
none signals MalformedStrokeRecordError (spec section 4.2). -/
def decodeStrokes (bs : List Nat) : Option (List Stroke) :=
  decodeRecsAux bs.length bs

/-- One raw page as extracted from the container: page number, image
bytes, optional stroke blob, optional audio bytes. -/
structure RawPage where
  pageNum : Nat
  imageBytes : List Nat
  strokeBlob : Option (List Nat)
  audioBytes : Option (List Nat)
deriving DecidableEq

/-- The durable outputs produced for one page: the image is always
written, audio follows audio presence, and the SVG rendering is present
exactly when stroke decoding succeeded. -/
structure PageOutput where
  pageNum : Nat
  imageWritten : Bool
  svg : Option (List Stroke)
  audioWritten : Bool
deriving DecidableEq

/-- Does this page's stroke blob fail to decode? -/
def strokeFails (pg : RawPage) : Bool :=
  match pg.strokeBlob with
  | some blob => (decodeStrokes blob).isNone
  | none => false

/-- Modelled from the spec: processing of one page (spec section 4.2):
image and audio are always produced; a stroke-decode failure only skips
the SVG rendering and yields one page-level error record. -/
def processPage (pg : RawPage) : PageOutput × Option (Nat × Str) :=
  match pg.strokeBlob with
  | none => (⟨pg.pageNum, true, none, pg.audioBytes.isSome⟩, none)
  | some blob =>
    match decodeStrokes blob with
    | some strokes => (⟨pg.pageNum, true, some strokes, pg.audioBytes.isSome⟩, none)
    | none =>
      (⟨pg.pageNum, true, none, pg.audioBytes.isSome⟩,
        some (pg.pageNum, str "MalformedStrokeRecordError: stroke record reads past buffer end"))

/-- Modelled from the spec: processing of a whole book: every page is
processed, page-level errors are collected, not fatal to the batch
(spec sections 4.2 and 7). -/
def processBook (pages : List RawPage) : List PageOutput × List (Nat × Str) :=
  (pages.map (fun pg => (processPage pg).1),
   pages.filterMap (fun pg => (processPage pg).2))

/-! ### Single-flight import guard

Modelled from the spec: the ImportWorkflow service holding the
reentrancy guard is not among the provided source files (main.ts only
declares the importInProgress flag and delegates).  Spec section 5: at
most one import pipeline run is permitted concurrently; the
importInProgress guard rejects a second invocation rather than
interleaving writes to the same manifest. -/

/-- Events of the import entry point: an invocation of processNoteFile,
or the completion of the running import. -/
inductive SyncEvent
  | invoke
  | complete
deriving DecidableEq

/-- Guard state: the importInProgress flag plus the number of pipeline
runs currently in progress (the quantity the flag is meant to bound). -/
structure GuardState where
  importInProgress : Bool
  activeRuns : Nat
deriving DecidableEq

/-- The state before any invocation. -/
def initialGuard : GuardState := ⟨false, 0⟩

/-- Modelled from the spec: one step of the guarded entry point.  An
invocation while importInProgress is set is rejected (returns false)
and starts no run; otherwise the flag is set and a run starts.
Completion clears the flag and ends the run. -/
def stepGuard (s : GuardState) (e : SyncEvent) : GuardState × Bool :=
  match e with
  | .invoke =>
    if s.importInProgress then (s, false)
    else (⟨true, s.activeRuns + 1⟩, true)
  | .complete => (⟨false, s.activeRuns - 1⟩, true)

/-- Run a sequence of events from a state. -/
def runGuard : GuardState → List SyncEvent → GuardState
  | s, [] => s
  | s, e :: es => runGuard (stepGuard s e).1 es

/-! ### OCR service (services/ocr-service.ts)

Embedded from the source.  The platform checks, the temp-file script
initialisation, the swift subprocess and the JSON parse of its stdout
are oracles in OCREnv.  The try block of performOCR runs the tool,
parses its stdout with an unchecked cast (JSON.parse(stdout) as
OCRResult) and forces only the text member (the log call reads
result.text.length) before returning the value as-is; so the block
either returns a possibly wrong-shaped value whose text member is
present, or throws with some message (exec failure, JSON.parse
failure, or the text-member access throwing), and the catch block
inspects that message, exactly as the source does. -/

/-- The runtime shape of a performOCR result.  The source's OCRResult
interface declares every field, but the value the try block returns is
JSON.parse output under an unchecked cast: only the text member is
forced (result.text.length), so every other field may be absent at
runtime; an absent (undefined) member is modelled as none. -/
structure OCRResult where
  success : Option Bool
  text : Str
  confidence : Option Rat
  errors : Option (List Str)
  processingTimeMs : Option Rat
deriving DecidableEq

/-- OCRServiceOptions: every field optional, defaults applied inside
performOCR as in the source destructuring. -/
structure OCRServiceOptions where
  languages : Option (List Str)
  confidenceThreshold : Option Rat
  timeout : Option Nat
deriving DecidableEq

/-- Outcome of the try block of performOCR: either stdout was valid
JSON with a text member, giving a possibly wrong-shaped value that the
unchecked cast lets through and the block returns as-is; or the block
threw with some message (exec rejection such as a timeout or spawn
failure, a JSON.parse failure on non-JSON output, or a missing text
member making result.text.length throw). -/
inductive ExecOutcome
  | parsed (r : OCRResult)
  | thrown (msg : Str)
deriving DecidableEq

/-- Oracle environment of one OCRService call. -/
structure OCREnv where
  isMacOS : Bool
  hasNode : Bool
  platformName : Str
  initOk : Bool
  outcome : ExecOutcome
  writeBlobOk : Bool
  writeBlobErrMsg : Str
deriving DecidableEq

/-- The degraded OCRResult the service builds on every failure path:
all fields present, success false, empty text, confidence 0. -/
def degraded (msgs : List Str) : OCRResult := ⟨some false, [], some 0, some msgs, none⟩

/-- OCRService.isAvailable: macOS and Node.js access. -/
def ocrAvailable (env : OCREnv) : Bool := env.isMacOS && env.hasNode

/-- OCRService.getAvailabilityMessage. -/
def getAvailabilityMessage (env : OCREnv) : Str :=
  if !env.isMacOS then
    str "OCR is only available on macOS. Current platform: " ++ env.platformName
  else if !env.hasNode then
    str "OCR requires Node.js access (desktop only)"
  else
    str "OCR is available"

/-- OCRService.performOCR (ocr-service.ts lines 120-212): availability
check, script initialisation, swift invocation, JSON parse, and the
catch chain distinguishing timeout, missing swift and other failures by
substring tests on the thrown message. -/
def performOCR (env : OCREnv) (opts : OCRServiceOptions) : OCRResult :=
  let timeout := opts.timeout.getD 30000
  if !ocrAvailable env then
    degraded [getAvailabilityMessage env]
  else if !env.initOk then
    degraded [str "Failed to initialize OCR script"]
  else
    match env.outcome with
    | .parsed r => r
    | .thrown msg =>
      if containsSub msg (str "timed out") then
        degraded [str "OCR timed out after " ++ natStr timeout ++ str "ms"]
      else if containsSub msg (str "not found") || containsSub msg (str "ENOENT") then
        degraded [str "Swift is not installed. Install with: xcode-select --install"]
      else
        degraded [msg]

/-- OCRService.performOCROnBlob (ocr-service.ts lines 220-268): Node
check, temp-file write of the blob, then performOCR; any throw of the
try block is caught and degraded. -/
def performOCROnBlob (env : OCREnv) (opts : OCRServiceOptions) : OCRResult :=
  if !env.hasNode then
    degraded [str "OCR requires Node.js file system access"]
  else if !env.writeBlobOk then
    degraded [env.writeBlobErrMsg]
  else
    performOCR env opts

/-! ### External file access (utils/external-file-access.ts)

Embedded from the source: DesktopFileAccess.scanDirectory and
MobileFileAccess.scanDirectory.  The directory listing and the per-file
stat / getFile calls are oracles. -/

/-- One entry of fs.readdirSync with withFileTypes. -/
structure DirEntry where
  name : Str
  isDirectory : Bool
deriving DecidableEq

/-- The fields of fs.statSync that the scan consults. -/
structure FileStat where
  mtimeMs : Int
  size : Nat
deriving DecidableEq

/-- The ExternalFileInfo shape (external-file-access.ts). -/
structure ExternalFileInfo where
  fileName : Str
  filePath : Str
  lastModified : Int
  fileSize : Nat
deriving DecidableEq

/-- path.join restricted to the two-argument use of the scan. -/
def joinPath (a b : Str) : Str := a ++ str "/" ++ b

/-- Oracle environment of one desktop scan: the listing and the stat
results (none models a statSync throw, which the source catches and
skips). -/
structure DesktopFsEnv where
  folderPath : Str
  entries : List DirEntry
  statF : Str → Option FileStat

/-- DesktopFileAccess.scanDirectory (external-file-access.ts lines
48-85): skips directories and hidden files, keeps names ending in .note
or .zip, and skips entries whose stat fails. -/
def desktopScanDirectory (env : DesktopFsEnv) : List ExternalFileInfo :=
  env.entries.filterMap fun e =>
    if e.isDirectory || strStartsWith e.name (str ".") then none
    else if !(strEndsWith e.name (str ".note") || strEndsWith e.name (str ".zip")) then none
    else
      match env.statF (joinPath env.folderPath e.name) with
      | some stt => some ⟨e.name, joinPath env.folderPath e.name, stt.mtimeMs, stt.size⟩
      | none => none

/-- One entry of the mobile directory handle iteration. -/
structure MobileEntry where
  name : Str
  isFile : Bool
deriving DecidableEq

/-- Oracle environment of one mobile scan: the listing and the
getFile results (none models a getFile throw, caught and skipped). -/
structure MobileFsEnv where
  entries : List MobileEntry
  getFile : Str → Option (Int × Nat)

/-- MobileFileAccess.scanDirectory (external-file-access.ts lines
139-174): keeps file-kind entries ending in .note or .zip whose
getFile succeeds; filePath is the bare name on mobile. -/
def mobileScanDirectory (env : MobileFsEnv) : List ExternalFileInfo :=
  env.entries.filterMap fun e =>
    if !e.isFile then none
    else if !(strEndsWith e.name (str ".note") || strEndsWith e.name (str ".zip")) then none
    else
      match env.getFile e.name with
      | some (lm, sz) => some ⟨e.name, e.name, lm, sz⟩
      | none => none

/-! ### Per-note OCR command (commands/run-ocr-command.ts)

Embedded from the source.  The regex tests of runOCROnNote are
translated into executable scanners with the same match semantics:
the frontmatter regex captures the lazily shortest block after an
opening delimiter at the start of the file; the viwoods, transclusion
and heading regexes are leftmost-match scans whose greedy pieces are
forced because each following required character cannot belong to the
repeated class. -/

/-- First match of ^---\x5cn([\x5cs\x5cS]+?)\x5cn--- : the content must
start with the opening delimiter, and the lazily shortest nonempty body
followed by a closing delimiter is captured. -/
def findFM (s : Str) : Option Str :=
  if strStartsWith s (str "---\n") then
    let body := s.drop 4
    match findSubIdx (body.drop 1) (str "\n---") with
    | some j => some (body.take (j + 1))
    | none => none
  else none

/-- Test of viwoods:\x5cs*true at one position and onward: the literal
key, any whitespace run, then the literal true. -/
def viwoodsTrue : Str → Bool
  | [] => false
  | c :: cs =>
    (strStartsWith (c :: cs) (str "viwoods:") &&
      strStartsWith (((c :: cs).drop 8).dropWhile isWsChar) (str "true"))
    || viwoodsTrue cs

/-- Try the transclusion pattern at one position: the literal opener,
one or more digits, the literal bracket sequence, a nonempty capture of
non-gt characters, and the closing pair; returns the capture. -/
def matchTransAt (s : Str) : Option Str :=
  if strStartsWith s (str "![Page ") then
    let r1 := s.drop 7
    let ds := r1.takeWhile Char.isDigit
    if ds = [] then none
    else
      let r2 := r1.drop ds.length
      if strStartsWith r2 (str "](<") then
        let r3 := r2.drop 3
        let cap := r3.takeWhile (fun c => c != '>')
        if cap = [] then none
        else if strStartsWith (r3.drop cap.length) (str ">)") then some cap
        else none
      else none
  else none

/-- Leftmost match of the image transclusion regex. -/
def findTransclusion : Str → Option Str
  | [] => none
  | c :: cs => (matchTransAt (c :: cs)).orElse (fun _ => findTransclusion cs)

/-- Try the page-heading pattern at one position; returns the matched
length (newline, the literal heading text, digits, newline). -/
def matchHeadingAt (s : Str) : Option Nat :=
  if strStartsWith s (str "\n## Page ") then
    let r1 := s.drop 9
    let ds := r1.takeWhile Char.isDigit
    if ds = [] then none
    else if strStartsWith (r1.drop ds.length) (str "\n") then some (9 + ds.length + 1)
    else none
  else none

/-- Leftmost match of the page-heading regex: start index and length. -/
def findHeading : Str → Option (Nat × Nat)
  | [] => none
  | c :: cs =>
    match matchHeadingAt (c :: cs) with
    | some len => some (0, len)
    | none => (findHeading cs).map (fun p => (p.1 + 1, p.2))

/-- The plugin settings fields consulted by the OCR command. -/
structure Settings where
  notesFolder : Str
  imagesFolder : Str
  enableOcr : Bool
  ocrLanguages : List Str
  ocrConfidenceThreshold : Rat
deriving DecidableEq

/-- Oracle environment for one runOCROnNote call: the note content and
the vault, metadata-cache and write collaborators. -/
structure NoteEnv where
  content : Str
  readOk : Bool
  readErrMsg : Str
  metadataResolves : Bool
  vaultFiles : List Str
  parentPath : Option Str
  attachmentFolderPath : Option Str
  readBinaryOk : Bool
  readBinaryErrMsg : Str
  modifyOk : Bool
  modifyErrMsg : Str

/-- The RunOCRResult shape (run-ocr-command.ts). -/
structure RunOCRResult where
  success : Bool
  textExtracted : Bool
  error : Option Str
deriving DecidableEq

/-- The full image path the source builds from the note's folder. -/
def fullImagePath (env : NoteEnv) (imagePath : Str) : Str :=
  let bookFolder := env.parentPath.getD []
  if bookFolder ≠ [] then bookFolder ++ str "/" ++ imagePath else imagePath

/-- Candidate vault paths tried when the metadata cache does not resolve
the transcluded image (run-ocr-command.ts lines 67-95). -/
def candidatePaths (st : Settings) (env : NoteEnv) (imagePath : Str) : List Str :=
  let fileName := lastComponent imagePath
  [fullImagePath env imagePath,
   st.imagesFolder ++ str "/" ++ fileName,
   st.imagesFolder ++ str "/" ++ imagePath]
  ++ (match env.attachmentFolderPath with
      | some att =>
        if att = [] then []
        else [att ++ str "/" ++ fileName, att ++ str "/" ++ imagePath]
      | none => [])

/-- Does the image-resolution procedure find a file: the metadata cache,
or the first candidate path that is a vault file? -/
def resolveImage (st : Settings) (env : NoteEnv) (imagePath : Str) : Bool :=
  env.metadataResolves || (candidatePaths st env imagePath).any (fun p => env.vaultFiles.contains p)

/-- Array.prototype.join with a comma separator. -/
def joinComma : List Str → Str
  | [] => []
  | [x] => x
  | x :: y :: xs => x ++ str ", " ++ joinComma (y :: xs)

/-- The OCR-failure message: joined errors, or a fallback when the
errors list is empty. -/
def errMsgOf (errs : List Str) : Str :=
  if errs = [] then str "OCR failed" else joinComma errs

/-- The TypeError message (V8 wording) raised when the command reads
result.errors.length off an absent errors member of a wrong-shaped OCR
result; the command's outer catch returns it as the error. -/
def errorsLengthTypeError : Str :=
  str "Cannot read properties of undefined (reading 'length')"

/-- The section inserted after the page heading. -/
def ocrSectionFor (text : Str) : Str := str "\n" ++ text ++ str "\n\n---\n\n"

/-- runOCROnNote (run-ocr-command.ts lines 24-143): the guard chain of
the command, returning the RunOCRResult and the note's final content.
Every early return leaves the content untouched; only the final
vault.modify writes the new content.  The success test mirrors the JS
truthiness of the possibly wrong-shaped OCR result (absent success is
falsy), and in that branch an absent errors member makes
result.errors.length throw, which the outer catch turns into a failed
RunOCRResult. -/
def runOCROnNote (st : Settings) (ocr : OCREnv) (env : NoteEnv) : RunOCRResult × Str :=
  if !env.readOk then (⟨false, false, some env.readErrMsg⟩, env.content)
  else
    let content := env.content
    match findFM content with
    | none => (⟨true, false, some (str "No YAML frontmatter found")⟩, content)
    | some fm =>
      if !viwoodsTrue fm then
        (⟨true, false,
          some (str "OCR only works on Viwoods notes (notes with viwoods: true in frontmatter)")⟩,
         content)
      else if containsSub content (str "## Extracted Text (OCR)") then
        (⟨true, false,
          some (str "OCR already run on this note (delete the \"## Extracted Text (OCR)\" section to re-run)")⟩,
         content)
      else
        match findTransclusion content with
        | none =>
          (⟨true, false,
            some (str "No image found in content (expected transclusion format: ![Page N](<path>)")⟩,
           content)
        | some rawPath =>
          let imagePath := trimStr rawPath
          if !resolveImage st env imagePath then
            (⟨true, false,
              some (str "Image file not found at: " ++ fullImagePath env imagePath)⟩,
             content)
          else if !env.readBinaryOk then (⟨false, false, some env.readBinaryErrMsg⟩, content)
          else
            let result := performOCROnBlob ocr
              ⟨some st.ocrLanguages, some st.ocrConfidenceThreshold, none⟩
            if result.success ≠ some true then
              match result.errors with
              | some es =>
                (⟨true, false, some (str "OCR failed: " ++ errMsgOf es)⟩, content)
              | none => (⟨false, false, some errorsLengthTypeError⟩, content)
            else if trimStr result.text = [] then
              (⟨true, false,
                some (str "No text detected in image (confidence may be too low or image has no readable text)")⟩,
               content)
            else
              match findHeading content with
              | none =>
                (⟨true, false, some (str "Could not find page heading to insert OCR text")⟩,
                 content)
              | some (idx, len) =>
                let pos := idx + len
                let newContent := content.take pos ++ ocrSectionFor result.text ++ content.drop pos
                if !env.modifyOk then (⟨false, false, some env.modifyErrMsg⟩, content)
                else (⟨true, true, none⟩, newContent)

/-- The RunOCRSummary shape (run-ocr-command.ts). -/
structure RunOCRSummary where
  totalNotes : Nat
  processedNotes : Nat
  totalImages : Nat
  processedImages : Nat
  errors : List Str
deriving DecidableEq

/-- Oracle environment of one runOCROnAllNotes call: the batch of notes
with their per-note environments, plus the preflight collaborators. -/
structure BatchEnv where
  ocr : OCREnv
  settings : Settings
  notesFolderExists : Bool
  files : List (Str × NoteEnv)

/-- The per-note loop of runOCROnAllNotes (run-ocr-command.ts lines
197-209): count every item, count extractions, append per-item errors,
and continue with the next item. -/
def ocrLoop (st : Settings) (ocr : OCREnv) : List (Str × NoteEnv) → RunOCRSummary → RunOCRSummary
  | [], s => s
  | (name, ne) :: rest, s =>
    let r := (runOCROnNote st ocr ne).1
    let s1 : RunOCRSummary :=
      ⟨s.totalNotes, s.processedNotes, s.totalImages + 1, s.processedImages, s.errors⟩
    let s2 : RunOCRSummary :=
      if r.textExtracted then
        ⟨s1.totalNotes, s1.processedNotes + 1, s1.totalImages, s1.processedImages + 1, s1.errors⟩
      else s1
    let s3 : RunOCRSummary :=
      match r.error with
      | some e =>
        ⟨s2.totalNotes, s2.processedNotes, s2.totalImages, s2.processedImages,
          s2.errors ++ [name ++ str ": " ++ e]⟩
      | none => s2
    ocrLoop st ocr rest s3

/-- runOCROnAllNotes (run-ocr-command.ts lines 148-218): preflight
checks each return a summary with one error; otherwise every note of
the folder is fed through runOCROnNote and the results folded into the
summary. -/
def runOCROnAllNotes (env : BatchEnv) : RunOCRSummary :=
  if !ocrAvailable env.ocr then
    ⟨0, 0, 0, 0, [str "OCR is not available on this platform (macOS only)"]⟩
  else if !env.settings.enableOcr then
    ⟨0, 0, 0, 0, [str "OCR is disabled in settings"]⟩
  else if !env.notesFolderExists then
    ⟨0, 0, 0, 0, [str "Notes folder not found: " ++ env.settings.notesFolder]⟩
  else
    ocrLoop env.settings env.ocr env.files ⟨env.files.length, 0, 0, 0, []⟩

/-! ### Shared proof helpers -/

/-- The degraded shape the claim requires of a failure result: success
false, empty text, confidence 0, and a present non-empty errors list. -/
def degradedShape (r : OCRResult) : Prop :=
  r.success = some false ∧ r.text = [] ∧ r.confidence = some 0 ∧
  ∃ es, r.errors = some es ∧ es ≠ []

theorem degradedShape_degraded (m : Str) (ms : List Str) :
    degradedShape (degraded (m :: ms)) :=
  ⟨rfl, rfl, rfl, m :: ms, rfl, by simp⟩

theorem performOCR_degrades (env : OCREnv) (opts : OCRServiceOptions)
    (h : ocrAvailable env = false ∨ env.initOk = false ∨ ∃ msg, env.outcome = .thrown msg) :
    degradedShape (performOCR env opts) := by
  unfold performOCR
  split
  · exact degradedShape_degraded _ _
  · split
    · exact degradedShape_degraded _ _
    · rcases h with h | h | ⟨msg, hm⟩
      · simp_all
      · simp_all
      · rw [hm]
        dsimp only
        split
        · exact degradedShape_degraded _ _
        · split
          · exact degradedShape_degraded _ _
          · exact degradedShape_degraded _ _

theorem performOCROnBlob_degrades (env : OCREnv) (opts : OCRServiceOptions)
    (h : env.hasNode = false ∨ env.writeBlobOk = false ∨ ocrAvailable env = false ∨
      env.initOk = false ∨ ∃ msg, env.outcome = .thrown msg) :
    degradedShape (performOCROnBlob env opts) := by
  unfold performOCROnBlob
  split
  · exact degradedShape_degraded _ _
  · split
    · exact degradedShape_degraded _ _
    · rcases h with h | h | h
      · simp_all
      · simp_all
      · exact performOCR_degrades env opts h

/-! ### Claim theorems -/

/-- A macOS environment whose tool printed valid JSON carrying only a
text member, so the unchecked cast lets the wrong-shaped value
through. -/
def wrongShapeEnv : OCREnv :=
  ⟨true, true, str "macos", true, .parsed ⟨none, str "x", none, none, none⟩, true, []⟩

/-- C6 counterexample: on malformed tool output that is valid JSON
carrying only a text member, performOCR (and performOCROnBlob) return
the wrong-shaped value as-is, un-degraded: success is absent rather
than false and the text is non-empty, refuting the claim's
degraded-result guarantee on malformed output. -/
theorem ocr_malformed_output_counterexample :
    performOCR wrongShapeEnv ⟨none, none, none⟩ =
      ⟨none, str "x", none, none, none⟩ ∧
    performOCROnBlob wrongShapeEnv ⟨none, none, none⟩ =
      ⟨none, str "x", none, none, none⟩ ∧
    ¬ degradedShape (performOCR wrongShapeEnv ⟨none, none, none⟩) := by
  refine ⟨rfl, rfl, fun h => ?_⟩
  have hs := h.1
  rw [show performOCR wrongShapeEnv ⟨none, none, none⟩ =
    ⟨none, str "x", none, none, none⟩ from rfl] at hs
  exact Option.noConfusion hs

/-- C6 (amended): the external text-extraction call never aborts the
surrounding processing.  performOCR and performOCROnBlob are total
functions of their oracle environment (every throwing collaborator is
an oracle field, and every TypeScript catch is a case split), so they
resolve to a result for every environment; on an unavailable platform,
a failed script initialisation, or any throw of the exec/parse try
block (timeout, missing swift, non-JSON output, or output whose text
member is absent so that reading result.text.length throws) they
return the degraded result (success false, empty text, confidence 0,
non-empty errors list); but malformed output that parses as JSON with
a text member present is returned as-is, un-degraded. -/
theorem ocr_degrades_never_aborts (env : OCREnv) (opts : OCRServiceOptions) :
    ((ocrAvailable env = false ∨ env.initOk = false ∨ ∃ msg, env.outcome = .thrown msg) →
      degradedShape (performOCR env opts)) ∧
    ((env.hasNode = false ∨ env.writeBlobOk = false ∨ ocrAvailable env = false ∨
        env.initOk = false ∨ ∃ msg, env.outcome = .thrown msg) →
      degradedShape (performOCROnBlob env opts)) ∧
    (∀ r, ocrAvailable env = true → env.initOk = true → env.outcome = .parsed r →
      performOCR env opts = r) := by
  refine ⟨performOCR_degrades env opts, performOCROnBlob_degrades env opts, ?_⟩
  intro r h1 h2 h3
  simp [performOCR, h1, h2, h3]

/-- A non-macOS environment with a thrown exec outcome. -/
def offPlatformEnv : OCREnv :=
  ⟨false, false, str "linux", false, .thrown (str "spawn swift ENOENT"), false, str "write failed"⟩

/-- C6 witness: the amended theorem applied to a concrete unavailable
platform and to the concrete wrong-shaped parse. -/
theorem ocr_degrades_never_aborts_witness :
    degradedShape (performOCR offPlatformEnv ⟨none, none, none⟩) ∧
    degradedShape (performOCROnBlob offPlatformEnv ⟨none, none, none⟩) ∧
    performOCR wrongShapeEnv ⟨none, none, none⟩ = ⟨none, str "x", none, none, none⟩ :=
  ⟨(ocr_degrades_never_aborts offPlatformEnv ⟨none, none, none⟩).1 (Or.inl rfl),
   (ocr_degrades_never_aborts offPlatformEnv ⟨none, none, none⟩).2.1 (Or.inl rfl),
   (ocr_degrades_never_aborts wrongShapeEnv ⟨none, none, none⟩).2.2 _ rfl rfl rfl⟩

/-- The guard invariant: the flag is set exactly while one run is in
progress, and never more than one run is in progress. -/
def guardInv (s : GuardState) : Prop :=
  s.importInProgress = decide (s.activeRuns = 1) ∧ s.activeRuns ≤ 1

theorem stepGuard_inv (s : GuardState) (e : SyncEvent) (h : guardInv s) :
    guardInv (stepGuard s e).1 := by
  obtain ⟨hf, hr⟩ := h
  cases e with
  | invoke =>
    simp only [stepGuard]
    by_cases hip : s.importInProgress = true
    · rw [if_pos hip]
      exact ⟨hf, hr⟩
    · have hip0 : s.importInProgress = false := by
        revert hip; cases s.importInProgress <;> simp
      have h0 : s.activeRuns = 0 := by
        by_contra hne
        have h1 : s.activeRuns = 1 := by omega
        rw [hip0, h1] at hf
        simp at hf
      rw [if_neg hip]
      refine ⟨?_, ?_⟩
      · show true = decide (s.activeRuns + 1 = 1)
        rw [h0]
        decide
      · show s.activeRuns + 1 ≤ 1
        omega
  | complete =>
    simp only [stepGuard]
    refine ⟨?_, ?_⟩
    · show false = decide (s.activeRuns - 1 = 1)
      have h0 : s.activeRuns - 1 = 0 := by omega
      rw [h0]
      decide
    · show s.activeRuns - 1 ≤ 1
      omega

theorem runGuard_inv (evs : List SyncEvent) (s : GuardState) (h : guardInv s) :
    guardInv (runGuard s evs) := by
  induction evs generalizing s with
  | nil => exact h
  | cons e es ih => exact ih _ (stepGuard_inv s e h)

/-- C8: single-flight import guard.  Modelled from the spec (the
ImportWorkflow holding the guard is not among the provided sources):
from the initial state, after any sequence of invocation and completion
events at most one import run is in progress; and whenever a run has
started and not completed, the importInProgress flag is set and a
further invocation of the entry point is rejected without changing the
state, rather than interleaving a second run. -/
theorem single_flight_guard (evs : List SyncEvent) :
    (runGuard initialGuard evs).activeRuns ≤ 1 ∧
    (1 ≤ (runGuard initialGuard evs).activeRuns →
      (runGuard initialGuard evs).importInProgress = true ∧
      stepGuard (runGuard initialGuard evs) .invoke = (runGuard initialGuard evs, false)) := by
  have hinv : guardInv (runGuard initialGuard evs) :=
    runGuard_inv evs initialGuard ⟨rfl, by decide⟩
  obtain ⟨hf, hr⟩ := hinv
  refine ⟨hr, fun h1 => ?_⟩
  have he : (runGuard initialGuard evs).activeRuns = 1 := by omega
  have hflag : (runGuard initialGuard evs).importInProgress = true := by
    rw [hf, he]; simp
  refine ⟨hflag, ?_⟩
  unfold stepGuard
  simp [hflag]

/-- C8 witness: the guard theorem applied to the one-invocation trace:
while that run is in progress a second invocation is rejected. -/
theorem single_flight_guard_witness :
    stepGuard (runGuard initialGuard [SyncEvent.invoke]) .invoke =
      (runGuard initialGuard [SyncEvent.invoke], false) :=
  ((single_flight_guard [SyncEvent.invoke]).2 (by decide)).2


theorem desktop_scan_mem_iff (denv : DesktopFsEnv) (fi : ExternalFileInfo) :
    fi ∈ desktopScanDirectory denv ↔
      ∃ e, e ∈ denv.entries ∧ e.isDirectory = false ∧
        strStartsWith e.name (str ".") = false ∧
        (strEndsWith e.name (str ".note") = true ∨ strEndsWith e.name (str ".zip") = true) ∧
        ∃ stt, denv.statF (joinPath denv.folderPath e.name) = some stt ∧
          fi = ⟨e.name, joinPath denv.folderPath e.name, stt.mtimeMs, stt.size⟩ := by
  unfold desktopScanDirectory
  rw [List.mem_filterMap]
  constructor
  · rintro ⟨e, he, hf⟩
    refine ⟨e, he, ?_⟩
    by_cases h1 : (e.isDirectory || strStartsWith e.name (str ".")) = true
    · rw [if_pos h1] at hf; cases hf
    · rw [if_neg h1] at hf
      simp only [Bool.or_eq_true, not_or, Bool.not_eq_true] at h1
      obtain ⟨hd, hh⟩ := h1
      by_cases h2 : (!(strEndsWith e.name (str ".note") || strEndsWith e.name (str ".zip"))) = true
      · rw [if_pos h2] at hf; cases hf
      · rw [if_neg h2] at hf
        simp only [Bool.not_eq_true, Bool.not_eq_false', Bool.or_eq_true] at h2
        rcases hs : denv.statF (joinPath denv.folderPath e.name) with _ | stt
        · rw [hs] at hf; cases hf
        · rw [hs] at hf
          exact ⟨hd, hh, h2, stt, rfl, (Option.some.inj hf).symm⟩
  · rintro ⟨e, he, hd, hh, hext, stt, hs, rfl⟩
    refine ⟨e, he, ?_⟩
    rw [if_neg (by simp [hd, hh]), if_neg (by rcases hext with h | h <;> simp [h]), hs]

theorem mobile_scan_mem_iff (menv : MobileFsEnv) (fi : ExternalFileInfo) :
    fi ∈ mobileScanDirectory menv ↔
      ∃ e, e ∈ menv.entries ∧ e.isFile = true ∧
        (strEndsWith e.name (str ".note") = true ∨ strEndsWith e.name (str ".zip") = true) ∧
        ∃ lm sz, menv.getFile e.name = some (lm, sz) ∧ fi = ⟨e.name, e.name, lm, sz⟩ := by
  unfold mobileScanDirectory
  rw [List.mem_filterMap]
  constructor
  · rintro ⟨e, he, hf⟩
    refine ⟨e, he, ?_⟩
    by_cases h1 : (!e.isFile) = true
    · rw [if_pos h1] at hf; cases hf
    · rw [if_neg h1] at hf
      simp only [Bool.not_eq_true, Bool.not_eq_false'] at h1
      by_cases h2 : (!(strEndsWith e.name (str ".note") || strEndsWith e.name (str ".zip"))) = true
      · rw [if_pos h2] at hf; cases hf
      · rw [if_neg h2] at hf
        simp only [Bool.not_eq_true, Bool.not_eq_false', Bool.or_eq_true] at h2
        rcases hs : menv.getFile e.name with _ | ⟨lm, sz⟩
        · rw [hs] at hf; cases hf
        · rw [hs] at hf
          exact ⟨h1, h2, lm, sz, rfl, (Option.some.inj hf).symm⟩
  · rintro ⟨e, he, hfile, hext, lm, sz, hs, rfl⟩
    refine ⟨e, he, ?_⟩
    rw [if_neg (by simp [hfile]), if_neg (by rcases hext with h | h <;> simp [h]), hs]

/-- A desktop listing holding one hidden note file that stats fine. -/
def hiddenNoteEnv : DesktopFsEnv :=
  ⟨str "/viwoods", [⟨str ".hidden.note", false⟩], fun _ => some ⟨0, 10⟩⟩

/-- C7 counterexample: a non-directory entry named .hidden.note ends
with .note and can be stat'ed, yet the desktop scan returns nothing:
the claim omits the desktop implementation's hidden-file exclusion. -/
theorem scan_directory_claim_counterexample :
    (⟨str ".hidden.note", false⟩ : DirEntry) ∈ hiddenNoteEnv.entries ∧
    (⟨str ".hidden.note", false⟩ : DirEntry).isDirectory = false ∧
    strEndsWith (str ".hidden.note") (str ".note") = true ∧
    hiddenNoteEnv.statF (joinPath hiddenNoteEnv.folderPath (str ".hidden.note")) = some ⟨0, 10⟩ ∧
    desktopScanDirectory hiddenNoteEnv = [] :=
  ⟨List.mem_singleton.mpr rfl, rfl, by decide, rfl, by decide⟩

/-- C7 (amended): both scans return exactly the non-directory entries
whose names end in .note or .zip and whose stat / getFile succeeds,
except that the desktop implementation additionally excludes hidden
files (names starting with a dot); every returned fileName carries one
of the two extensions. -/
theorem scan_directory_filters (denv : DesktopFsEnv) (menv : MobileFsEnv) :
    (∀ fi, fi ∈ desktopScanDirectory denv ↔
      ∃ e, e ∈ denv.entries ∧ e.isDirectory = false ∧
        strStartsWith e.name (str ".") = false ∧
        (strEndsWith e.name (str ".note") = true ∨ strEndsWith e.name (str ".zip") = true) ∧
        ∃ stt, denv.statF (joinPath denv.folderPath e.name) = some stt ∧
          fi = ⟨e.name, joinPath denv.folderPath e.name, stt.mtimeMs, stt.size⟩) ∧
    (∀ fi, fi ∈ mobileScanDirectory menv ↔
      ∃ e, e ∈ menv.entries ∧ e.isFile = true ∧
        (strEndsWith e.name (str ".note") = true ∨ strEndsWith e.name (str ".zip") = true) ∧
        ∃ lm sz, menv.getFile e.name = some (lm, sz) ∧ fi = ⟨e.name, e.name, lm, sz⟩) ∧
    (∀ fi ∈ desktopScanDirectory denv,
      strEndsWith fi.fileName (str ".note") = true ∨ strEndsWith fi.fileName (str ".zip") = true) ∧
    (∀ fi ∈ mobileScanDirectory menv,
      strEndsWith fi.fileName (str ".note") = true ∨ strEndsWith fi.fileName (str ".zip") = true) := by
  refine ⟨desktop_scan_mem_iff denv, mobile_scan_mem_iff menv, ?_, ?_⟩
  · intro fi hm
    obtain ⟨e, _, _, _, hext, stt, _, rfl⟩ := (desktop_scan_mem_iff denv fi).mp hm
    exact hext
  · intro fi hm
    obtain ⟨e, _, _, hext, lm, sz, _, rfl⟩ := (mobile_scan_mem_iff menv fi).mp hm
    exact hext

/-- A desktop listing holding one visible note file. -/
def visibleNoteEnv : DesktopFsEnv :=
  ⟨str "/viwoods", [⟨str "a.note", false⟩], fun _ => some ⟨0, 10⟩⟩

/-- A mobile listing with no entries. -/
def emptyMobileEnv : MobileFsEnv := ⟨[], fun _ => none⟩

/-- C7 witness: the amended theorem applied to a concrete listing
includes a visible .note file. -/
theorem scan_directory_filters_witness :
    (⟨str "a.note", joinPath (str "/viwoods") (str "a.note"), 0, 10⟩ : ExternalFileInfo) ∈
      desktopScanDirectory visibleNoteEnv :=
  ((scan_directory_filters visibleNoteEnv emptyMobileEnv).1 _).mpr
    ⟨⟨str "a.note", false⟩, List.mem_singleton.mpr rfl, rfl, by decide,
      Or.inl (by decide), ⟨0, 10⟩, rfl, rfl⟩

theorem processPage_err_isSome (pg : RawPage) :
    (processPage pg).2.isSome = strokeFails pg := by
  rcases hb : pg.strokeBlob with _ | blob
  · simp [processPage, strokeFails, hb]
  · rcases hd : decodeStrokes blob with _ | strokes
    · simp [processPage, strokeFails, hb, hd]
    · simp [processPage, strokeFails, hb, hd]

theorem processBook_errors_length (pages : List RawPage) :
    (processBook pages).2.length = (pages.filter (fun pg => strokeFails pg)).length := by
  induction pages with
  | nil => rfl
  | cons pg t ih =>
    simp only [processBook, List.filterMap_cons, List.filter_cons] at *
    cases hsf : strokeFails pg with
    | true =>
      obtain ⟨v, hv⟩ := Option.isSome_iff_exists.mp
        (by rw [processPage_err_isSome]; exact hsf)
      rw [hv]
      simp [hsf, ih]
    | false =>
      have hnone : (processPage pg).2 = none := by
        have := processPage_err_isSome pg
        rw [hsf] at this
        exact Option.not_isSome_iff_eq_none.mp (by rw [this]; simp)
      rw [hnone]
      simp [hsf, ih]

/-- C4: stroke-decode failure is page-local and recoverable.  Every
page of the book yields an output with its image written and audio
written exactly when audio is present; a page whose stroke blob is
malformed only has its SVG rendering skipped, while a page whose blob
decodes keeps its SVG; the error list holds exactly one entry per
failing page, so a book with exactly one malformed stroke blob reports
exactly one page-level error. -/
theorem stroke_failure_page_local (pages : List RawPage) :
    (processBook pages).1.length = pages.length ∧
    (∀ pg ∈ pages, ∃ out, out ∈ (processBook pages).1 ∧
      out.pageNum = pg.pageNum ∧ out.imageWritten = true ∧
      out.audioWritten = pg.audioBytes.isSome ∧
      (strokeFails pg = true → out.svg = none) ∧
      (strokeFails pg = false → pg.strokeBlob.isSome = true → out.svg.isSome = true)) ∧
    (processBook pages).2.length = (pages.filter (fun pg => strokeFails pg)).length ∧
    (pages.countP (fun pg => strokeFails pg) = 1 → (processBook pages).2.length = 1) := by
  refine ⟨by simp [processBook], ?_, processBook_errors_length pages, fun hc => ?_⟩
  · intro pg hpg
    refine ⟨(processPage pg).1, ?_, ?_⟩
    · simp only [processBook]
      exact List.mem_map_of_mem _ hpg
    · rcases hb : pg.strokeBlob with _ | blob
      · simp [processPage, strokeFails, hb]
      · rcases hd : decodeStrokes blob with _ | strokes
        · simp [processPage, strokeFails, hb, hd]
        · simp [processPage, strokeFails, hb, hd]
  · rw [processBook_errors_length pages, ← List.countP_eq_length_filter]
    exact hc

/-- A three-page demo book whose second page's stroke blob declares
five points but holds none, so its decode reads past the buffer end. -/
def demoPages : List RawPage :=
  [⟨1, [7], some [0, 0, 0, 0, 0, 0, 0, 0], none⟩,
   ⟨2, [8], some [1, 0, 0, 0, 5, 0, 0, 0], some [9]⟩,
   ⟨3, [9], none, some [1]⟩]

/-- C4 witness: the isolation theorem applied to the demo book reports
exactly one page-level error. -/
theorem stroke_failure_page_local_witness :
    (processBook demoPages).2.length = 1 :=
  (stroke_failure_page_local demoPages).2.2.2 (by decide)

theorem findEntry_map_keyed (f : DecodedPage → ManifestEntry) (book : List DecodedPage)
    (pg : DecodedPage) (h : pg ∈ book) (nd : (book.map DecodedPage.pageNum).Nodup) :
    findEntry pg.pageNum (book.map (fun q => (q.pageNum, f q))) = some (f pg) := by
  induction book with
  | nil => cases h
  | cons q t ih =>
    have hnd : (∀ x ∈ t, ¬ x.pageNum = q.pageNum) ∧ (t.map DecodedPage.pageNum).Nodup := by
      simpa using nd
    rw [List.map_cons]
    rcases List.mem_cons.mp h with rfl | ht
    · simp [findEntry]
    · have hne : q.pageNum ≠ pg.pageNum := fun he => hnd.1 pg ht he.symm
      simp only [findEntry]
      rw [if_neg hne]
      exact ih ht hnd.2

theorem classify_manifestAfter (book : List DecodedPage) (pg : DecodedPage)
    (h : pg ∈ book) (nd : (book.map DecodedPage.pageNum).Nodup) :
    classifyPage (manifestAfter book) pg =
      ⟨pg.pageNum, .unchanged, some pg.imageHash, some pg.imageHash, false⟩ := by
  unfold classifyPage manifestAfter
  rw [findEntry_map_keyed (fun q => ⟨q.imageHash, some q.hasAudio⟩) book pg h nd]
  simp

theorem detect_manifestAfter (book : List DecodedPage)
    (nd : (book.map DecodedPage.pageNum).Nodup) :
    detectPageChanges book (manifestAfter book) =
      book.map (fun pg =>
        ⟨pg.pageNum, .unchanged, some pg.imageHash, some pg.imageHash, false⟩) := by
  unfold detectPageChanges
  have h2 : (manifestAfter book).importedPages.filter
      (fun pe => ! book.any (fun pg => pg.pageNum == pe.1)) = [] := by
    rw [List.filter_eq_nil_iff]
    intro pe hpe
    simp only [manifestAfter] at hpe
    rcases List.mem_map.mp hpe with ⟨q, hq, rfl⟩
    simp only [Bool.not_eq_true, Bool.not_eq_false']
    rw [List.any_eq_true]
    exact ⟨q, hq, by simp⟩
  rw [h2, List.map_nil, List.append_nil]
  exact List.map_congr_left (fun pg hpg => classify_manifestAfter book pg hpg nd)

theorem pagesOfType_unchanged (book : List DecodedPage) :
    pagesOfType (book.map (fun pg =>
        (⟨pg.pageNum, .unchanged, some pg.imageHash, some pg.imageHash, false⟩ : PageChange)))
      .unchanged = book.map DecodedPage.pageNum := by
  induction book with
  | nil => rfl
  | cons q t ih =>
    simp only [List.map_cons, pagesOfType, List.filter_cons] at *
    simp only [show ((ChangeType.unchanged == ChangeType.unchanged)) = true from rfl,
      if_true, List.map_cons]
    rw [ih]

theorem pagesOfType_not_unchanged (book : List DecodedPage) (t : ChangeType)
    (h : ¬ (ChangeType.unchanged = t)) :
    pagesOfType (book.map (fun pg =>
        (⟨pg.pageNum, .unchanged, some pg.imageHash, some pg.imageHash, false⟩ : PageChange)))
      t = [] := by
  induction book with
  | nil => rfl
  | cons q t' ih =>
    simp only [List.map_cons, pagesOfType, List.filter_cons] at *
    have hb : ((ChangeType.unchanged == t)) = false := by
      rw [beq_eq_false_iff_ne]
      exact h
    simp only [hb, if_false]
    exact ih

/-- C3: import is idempotent on an unchanged source.  After a run whose
manifest update records every page's freshly computed hash and audio
flag, a second run over the byte-identical decode classifies every page
unchanged: unchangedPages lists all totalPages pages, newPages and
modifiedPages (and deletedPages) are empty, and no page outputs are
written. -/
theorem import_idempotent (book : List DecodedPage) (m : Manifest)
    (nd : (book.map DecodedPage.pageNum).Nodup) :
    (runImport book (runImport book m).manifest).summary.unchangedPages =
      book.map DecodedPage.pageNum ∧
    (runImport book (runImport book m).manifest).summary.newPages = [] ∧
    (runImport book (runImport book m).manifest).summary.modifiedPages = [] ∧
    (runImport book (runImport book m).manifest).summary.deletedPages = [] ∧
    (runImport book (runImport book m).manifest).summary.unchangedPages.length =
      (runImport book (runImport book m).manifest).summary.totalPages ∧
    (runImport book (runImport book m).manifest).writes = [] := by
  have hm1 : (runImport book m).manifest = manifestAfter book := rfl
  rw [hm1]
  simp only [runImport, buildSummary]
  rw [detect_manifestAfter book nd]
  rw [pagesOfType_unchanged, pagesOfType_not_unchanged book .new (by decide),
    pagesOfType_not_unchanged book .modified (by decide),
    pagesOfType_not_unchanged book .deleted (by decide)]
  exact ⟨rfl, rfl, rfl, rfl, by simp, rfl⟩

/-- The prior-import scenario of the spec's testable properties. -/
def scenManifest : Manifest := ⟨[(1, ⟨str "h1", none⟩), (2, ⟨str "h2", none⟩)]⟩

/-- The freshly decoded scenario book of the spec's testable
properties: page 1 unchanged, page 2 re-exported, page 3 new. -/
def scenBook : List DecodedPage :=
  [⟨1, str "h1", false⟩, ⟨2, str "h2x", false⟩, ⟨3, str "h3", false⟩]

/-- C3 witness: the idempotence theorem applied to the scenario book
re-imported over its own fresh manifest. -/
theorem import_idempotent_witness :
    (runImport scenBook (runImport scenBook ⟨[]⟩).manifest).summary.newPages = [] ∧
    (runImport scenBook (runImport scenBook ⟨[]⟩).manifest).summary.modifiedPages = [] ∧
    (runImport scenBook (runImport scenBook ⟨[]⟩).manifest).writes = [] :=
  ⟨(import_idempotent scenBook ⟨[]⟩ (by decide)).2.1,
   (import_idempotent scenBook ⟨[]⟩ (by decide)).2.2.1,
   (import_idempotent scenBook ⟨[]⟩ (by decide)).2.2.2.2.2⟩

theorem classifyPage_pageNum (m : Manifest) (pg : DecodedPage) :
    (classifyPage m pg).pageNum = pg.pageNum := by
  unfold classifyPage
  split
  · rfl
  · split
    · rfl
    · split
      · rfl
      · rfl

theorem find?_map_classify (book : List DecodedPage) (m : Manifest) (pg : DecodedPage)
    (h : pg ∈ book) (nd : (book.map DecodedPage.pageNum).Nodup) :
    (book.map (classifyPage m)).find? (fun c => c.pageNum == pg.pageNum) =
      some (classifyPage m pg) := by
  induction book with
  | nil => cases h
  | cons q t ih =>
    have hnd : (∀ x ∈ t, ¬ x.pageNum = q.pageNum) ∧ (t.map DecodedPage.pageNum).Nodup := by
      simpa using nd
    rw [List.map_cons]
    rcases List.mem_cons.mp h with rfl | ht
    · rw [List.find?_cons_of_pos]
      simp [classifyPage_pageNum]
    · rw [List.find?_cons_of_neg]
      · exact ih ht hnd.2
      · simp only [classifyPage_pageNum, beq_iff_eq]
        exact fun he => hnd.1 pg ht he.symm

theorem changeFor_mem (book : List DecodedPage) (m : Manifest) (pg : DecodedPage)
    (h : pg ∈ book) (nd : (book.map DecodedPage.pageNum).Nodup) :
    changeFor book m pg.pageNum = some (classifyPage m pg) := by
  unfold changeFor detectPageChanges
  rw [List.find?_append, find?_map_classify book m pg h nd]
  rfl

theorem find?_book_none (book : List DecodedPage) (m : Manifest) (p : Nat)
    (hp : p ∉ book.map DecodedPage.pageNum) :
    (book.map (classifyPage m)).find? (fun c => c.pageNum == p) = none := by
  rw [List.find?_eq_none]
  intro c hc
  rcases List.mem_map.mp hc with ⟨pg, hpg, rfl⟩
  simp only [classifyPage_pageNum, beq_iff_eq]
  intro he
  exact hp (he ▸ List.mem_map_of_mem _ hpg)

theorem find?_deleted (book : List DecodedPage) (l : List (Nat × ManifestEntry))
    (pe : Nat × ManifestEntry) (hpe : pe ∈ l) (ndm : (l.map Prod.fst).Nodup)
    (hnb : pe.1 ∉ book.map DecodedPage.pageNum) :
    ((l.filter (fun pr => ! book.any (fun pg => pg.pageNum == pr.1))).map
        (fun pr => (⟨pr.1, .deleted, some pr.2.imageHash, none, false⟩ : PageChange))).find?
      (fun c => c.pageNum == pe.1) =
      some ⟨pe.1, .deleted, some pe.2.imageHash, none, false⟩ := by
  induction l with
  | nil => cases hpe
  | cons q t ih =>
    have hnd : q.1 ∉ t.map Prod.fst ∧ (t.map Prod.fst).Nodup := by
      rw [List.map_cons, List.nodup_cons] at ndm
      exact ndm
    rcases List.mem_cons.mp hpe with rfl | ht
    · have hpred : (! book.any (fun pg => pg.pageNum == pe.1)) = true := by
        simp only [Bool.not_eq_true', List.any_eq_false, beq_iff_eq]
        intro pg hpg he
        exact hnb (he ▸ List.mem_map_of_mem _ hpg)
      rw [List.filter_cons, if_pos hpred, List.map_cons, List.find?_cons_of_pos]
      simp
    · have hne : ¬ q.1 = pe.1 := fun he => hnd.1 (he ▸ List.mem_map_of_mem _ ht)
      rw [List.filter_cons]
      by_cases hpq : (! book.any (fun pg => pg.pageNum == q.1)) = true
      · rw [if_pos hpq, List.map_cons, List.find?_cons_of_neg]
        · exact ih ht hnd.2
        · simpa using hne
      · rw [if_neg hpq]
        exact ih ht hnd.2

theorem changeFor_deleted (book : List DecodedPage) (m : Manifest)
    (pe : Nat × ManifestEntry) (hpe : pe ∈ m.importedPages)
    (ndm : (m.importedPages.map Prod.fst).Nodup)
    (hnb : pe.1 ∉ book.map DecodedPage.pageNum) :
    changeFor book m pe.1 = some ⟨pe.1, .deleted, some pe.2.imageHash, none, false⟩ := by
  unfold changeFor detectPageChanges
  rw [List.find?_append, find?_book_none book m pe.1 hnb, Option.none_or]
  exact find?_deleted book m.importedPages pe hpe ndm hnb

/-- C1: the change detector's classification casework, plus the
concrete scenario of the spec's testable properties.  For a book with
unique page numbers and a manifest with unique keys: a decoded page
absent from the manifest is reported new; present with a differing hash
it is reported modified; present with an equal hash but a differing
audio-presence flag it is reported modified with hasAudioChange set;
present with equal hash and equal audio flag it is reported unchanged;
and a manifest page absent from the book is reported deleted.  On the
scenario manifest and decode, the summary is unchangedPages = [1],
modifiedPages = [2], newPages = [3], deletedPages = []. -/
theorem change_detector_classification (book : List DecodedPage) (m : Manifest)
    (ndb : (book.map DecodedPage.pageNum).Nodup)
    (ndm : (m.importedPages.map Prod.fst).Nodup) :
    (∀ pg ∈ book,
      (findEntry pg.pageNum m.importedPages = none →
        changeFor book m pg.pageNum =
          some ⟨pg.pageNum, .new, none, some pg.imageHash, false⟩) ∧
      (∀ e, findEntry pg.pageNum m.importedPages = some e →
        (pg.imageHash ≠ e.imageHash →
          changeFor book m pg.pageNum =
            some ⟨pg.pageNum, .modified, some e.imageHash, some pg.imageHash, false⟩) ∧
        (pg.imageHash = e.imageHash → pg.hasAudio ≠ e.hasAudio.getD false →
          changeFor book m pg.pageNum =
            some ⟨pg.pageNum, .modified, some e.imageHash, some pg.imageHash, true⟩) ∧
        (pg.imageHash = e.imageHash → pg.hasAudio = e.hasAudio.getD false →
          changeFor book m pg.pageNum =
            some ⟨pg.pageNum, .unchanged, some e.imageHash, some pg.imageHash, false⟩))) ∧
    (∀ pe ∈ m.importedPages, pe.1 ∉ book.map DecodedPage.pageNum →
      changeFor book m pe.1 = some ⟨pe.1, .deleted, some pe.2.imageHash, none, false⟩) ∧
    buildSummary scenBook scenManifest = ⟨3, [3], [2], [1], [], []⟩ := by
  refine ⟨?_, fun pe hpe hnb => changeFor_deleted book m pe hpe ndm hnb, by decide⟩
  intro pg hpg
  have hcf := changeFor_mem book m pg hpg ndb
  refine ⟨fun hfe => ?_, fun e hfe => ⟨fun hne => ?_, fun heq hau => ?_, fun heq hau => ?_⟩⟩
  · rw [hcf]
    unfold classifyPage
    rw [hfe]
  · rw [hcf]
    unfold classifyPage
    rw [hfe]
    simp only [if_pos hne]
  · rw [hcf]
    unfold classifyPage
    rw [hfe]
    simp only [if_neg (fun hc : pg.imageHash ≠ e.imageHash => hc heq), if_pos hau]
  · rw [hcf]
    unfold classifyPage
    rw [hfe]
    simp only [if_neg (fun hc : pg.imageHash ≠ e.imageHash => hc heq),
      if_neg (fun hc : pg.hasAudio ≠ e.hasAudio.getD false => hc hau)]

/-- C1 witness: the classification theorem applied to the scenario
inputs yields the expected summary. -/
theorem change_detector_classification_witness :
    buildSummary scenBook scenManifest = ⟨3, [3], [2], [1], [], []⟩ :=
  (change_detector_classification scenBook scenManifest (by decide) (by decide)).2.2

theorem countP_book_part (book : List DecodedPage) (m : Manifest) (p : Nat) :
    (book.map (classifyPage m)).countP (fun c => c.pageNum == p) =
      (book.map DecodedPage.pageNum).count p := by
  induction book with
  | nil => rfl
  | cons q t ih =>
    rw [List.map_cons, List.countP_cons, List.map_cons, List.count_cons, ih]
    congr 1
    simp [classifyPage_pageNum]

theorem countP_deleted_part (book : List DecodedPage) (l : List (Nat × ManifestEntry)) (p : Nat) :
    ((l.filter (fun pr => ! book.any (fun pg => pg.pageNum == pr.1))).map
        (fun pr => (⟨pr.1, .deleted, some pr.2.imageHash, none, false⟩ : PageChange))).countP
      (fun c => c.pageNum == p) =
      if p ∈ book.map DecodedPage.pageNum then 0 else (l.map Prod.fst).count p := by
  induction l with
  | nil => simp
  | cons q t ih =>
    rw [List.filter_cons]
    by_cases hq : q.1 = p
    · by_cases hm : p ∈ book.map DecodedPage.pageNum
      · have hpred : ¬ ((! book.any (fun pg => pg.pageNum == q.1)) = true) := by
          simp only [Bool.not_eq_true', Bool.not_eq_false, List.any_eq_true, beq_iff_eq]
          rcases List.mem_map.mp hm with ⟨pg, hpg, hpg2⟩
          exact ⟨pg, hpg, by rw [hpg2, hq]⟩
        rw [if_neg hpred, ih, if_pos hm, if_pos hm]
      · have hpred : (! book.any (fun pg => pg.pageNum == q.1)) = true := by
          simp only [Bool.not_eq_true', List.any_eq_false, beq_iff_eq]
          intro pg hpg he
          exact hm (by rw [← hq, ← he]; exact List.mem_map_of_mem _ hpg)
        rw [if_pos hpred, List.map_cons, List.countP_cons, ih, if_neg hm, if_neg hm,
          List.map_cons, List.count_cons]
    · by_cases hpq : (! book.any (fun pg => pg.pageNum == q.1)) = true
      · rw [if_pos hpq, List.map_cons, List.countP_cons, ih, List.map_cons, List.count_cons]
        simp [hq]
      · rw [if_neg hpq, ih, List.map_cons, List.count_cons]
        simp [hq]

/-- C2: classification completeness and uniqueness.  For a book with
unique page numbers and a manifest with unique keys, every page number
in the union of the book's page numbers and the manifest's keys
receives exactly one change record (hence exactly one of the four
classifications), and a page number outside the union receives none. -/
theorem classification_exactly_once (book : List DecodedPage) (m : Manifest)
    (ndb : (book.map DecodedPage.pageNum).Nodup)
    (ndm : (m.importedPages.map Prod.fst).Nodup) (p : Nat) :
    ((p ∈ book.map DecodedPage.pageNum ∨ p ∈ m.importedPages.map Prod.fst) →
      (detectPageChanges book m).countP (fun c => c.pageNum == p) = 1) ∧
    (p ∉ book.map DecodedPage.pageNum → p ∉ m.importedPages.map Prod.fst →
      (detectPageChanges book m).countP (fun c => c.pageNum == p) = 0) := by
  have key : (detectPageChanges book m).countP (fun c => c.pageNum == p) =
      (book.map DecodedPage.pageNum).count p +
      (if p ∈ book.map DecodedPage.pageNum then 0
        else (m.importedPages.map Prod.fst).count p) := by
    unfold detectPageChanges
    rw [List.countP_append, countP_book_part, countP_deleted_part]
  constructor
  · rintro (hb | hm)
    · rw [key, if_pos hb, List.count_eq_one_of_mem ndb hb]
    · by_cases hb : p ∈ book.map DecodedPage.pageNum
      · rw [key, if_pos hb, List.count_eq_one_of_mem ndb hb]
      · rw [key, if_neg hb, List.count_eq_zero_of_not_mem hb,
          List.count_eq_one_of_mem ndm hm]
  · intro hb hm
    rw [key, if_neg hb, List.count_eq_zero_of_not_mem hb,
      List.count_eq_zero_of_not_mem hm]

/-- C2 witness: on the scenario inputs, page 2 receives exactly one
classification. -/
theorem classification_exactly_once_witness :
    (detectPageChanges scenBook scenManifest).countP (fun c => c.pageNum == 2) = 1 :=
  (classification_exactly_once scenBook scenManifest (by decide) (by decide) 2).1
    (Or.inl (by decide))

theorem ocrLoop_totalNotes (st : Settings) (ocr : OCREnv) (fs : List (Str × NoteEnv)) :
    ∀ s, (ocrLoop st ocr fs s).totalNotes = s.totalNotes := by
  induction fs with
  | nil => intro s; rfl
  | cons hd tl ih =>
    intro s
    obtain ⟨name, ne⟩ := hd
    rcases he : (runOCROnNote st ocr ne).1.error with _ | e <;>
      rcases ht : (runOCROnNote st ocr ne).1.textExtracted <;>
        simp [ocrLoop, he, ht, ih]

theorem ocrLoop_totalImages (st : Settings) (ocr : OCREnv) (fs : List (Str × NoteEnv)) :
    ∀ s, (ocrLoop st ocr fs s).totalImages = s.totalImages + fs.length := by
  induction fs with
  | nil => intro s; rfl
  | cons hd tl ih =>
    intro s
    obtain ⟨name, ne⟩ := hd
    rcases he : (runOCROnNote st ocr ne).1.error with _ | e <;>
      rcases ht : (runOCROnNote st ocr ne).1.textExtracted <;>
        simp [ocrLoop, he, ht, ih, Nat.add_comm, Nat.add_left_comm, Nat.add_assoc]

theorem ocrLoop_errors (st : Settings) (ocr : OCREnv) (fs : List (Str × NoteEnv)) :
    ∀ s, (ocrLoop st ocr fs s).errors = s.errors ++ fs.filterMap
      (fun pr => ((runOCROnNote st ocr pr.2).1.error).map (fun e => pr.1 ++ str ": " ++ e)) := by
  induction fs with
  | nil => intro s; simp [ocrLoop]
  | cons hd tl ih =>
    intro s
    obtain ⟨name, ne⟩ := hd
    rcases he : (runOCROnNote st ocr ne).1.error with _ | e <;>
      rcases ht : (runOCROnNote st ocr ne).1.textExtracted <;>
        simp [ocrLoop, he, ht, ih, List.filterMap_cons]

/-- C9: a batch OCR run always completes with a summary.  The function
is total over its oracle environment (a per-note failure is a value of
RunOCRResult, never an exception): each preflight failure resolves to a
summary with one error and no items processed, and otherwise every note
of the folder is visited exactly once (totalImages counts them all, so
no item aborts the batch), with each failing item's error appended to
the summary's error list and processing continuing with the next. -/
theorem batch_ocr_always_summarises (env : BatchEnv) :
    ((ocrAvailable env.ocr = false ∨ env.settings.enableOcr = false ∨
        env.notesFolderExists = false) →
      (runOCROnAllNotes env).errors.length = 1 ∧ (runOCROnAllNotes env).totalImages = 0) ∧
    (ocrAvailable env.ocr = true → env.settings.enableOcr = true →
      env.notesFolderExists = true →
      (runOCROnAllNotes env).totalNotes = env.files.length ∧
      (runOCROnAllNotes env).totalImages = env.files.length ∧
      (runOCROnAllNotes env).errors = env.files.filterMap
        (fun pr => ((runOCROnNote env.settings env.ocr pr.2).1.error).map
          (fun e => pr.1 ++ str ": " ++ e))) := by
  constructor
  · intro h
    unfold runOCROnAllNotes
    split
    · exact ⟨rfl, rfl⟩
    · split
      · exact ⟨rfl, rfl⟩
      · split
        · exact ⟨rfl, rfl⟩
        · rcases h with h | h | h <;> simp_all
  · intro h1 h2 h3
    unfold runOCROnAllNotes
    rw [if_neg (by simp [h1]), if_neg (by simp [h2]), if_neg (by simp [h3])]
    refine ⟨ocrLoop_totalNotes _ _ _ _, ?_, ?_⟩
    · rw [ocrLoop_totalImages]
      simp
    · rw [ocrLoop_errors]
      rfl

/-- A batch environment on a non-macOS platform. -/
def offPlatformBatchEnv : BatchEnv :=
  ⟨offPlatformEnv, ⟨str "Viwoods", str "Viwoods/Images", true, [str "en-US"], 0⟩, true, []⟩

/-- C9 witness: the batch theorem applied to an unavailable platform
yields a one-error summary. -/
theorem batch_ocr_always_summarises_witness :
    (runOCROnAllNotes offPlatformBatchEnv).errors.length = 1 ∧
    (runOCROnAllNotes offPlatformBatchEnv).totalImages = 0 :=
  (batch_ocr_always_summarises offPlatformBatchEnv).1 (Or.inl rfl)

/-- The claim's conditions for runOCROnNote to touch the note: a
frontmatter block containing viwoods true, no prior OCR marker, a
transcluded image that resolves, a successful OCR with non-empty text,
and a page heading to insert after. -/
def ocrNoteConditions (st : Settings) (ocr : OCREnv) (env : NoteEnv) : Prop :=
  (∃ fm, findFM env.content = some fm ∧ viwoodsTrue fm = true) ∧
  containsSub env.content (str "## Extracted Text (OCR)") = false ∧
  (∃ p, findTransclusion env.content = some p ∧ resolveImage st env (trimStr p) = true) ∧
  (performOCROnBlob ocr ⟨some st.ocrLanguages, some st.ocrConfidenceThreshold, none⟩).success
    = some true ∧
  (performOCROnBlob ocr ⟨some st.ocrLanguages, some st.ocrConfidenceThreshold, none⟩).text
    ≠ [] ∧
  (findHeading env.content).isSome = true

/-- C10: frame property of the per-note OCR command.  The note content
is changed only when all the claim's conditions hold (and then
textExtracted is true); whenever any condition fails, the function
returns with textExtracted false and the note content byte-for-byte
unchanged. -/
theorem ocr_note_frame (st : Settings) (ocr : OCREnv) (env : NoteEnv) :
    ((runOCROnNote st ocr env).2 ≠ env.content →
      ocrNoteConditions st ocr env ∧ (runOCROnNote st ocr env).1.textExtracted = true) ∧
    (¬ ocrNoteConditions st ocr env →
      (runOCROnNote st ocr env).2 = env.content ∧
      (runOCROnNote st ocr env).1.textExtracted = false) := by
  simp only [runOCROnNote]
  split
  · exact ⟨fun hne => (hne rfl).elim, fun _ => ⟨rfl, rfl⟩⟩
  · split
    · exact ⟨fun hne => (hne rfl).elim, fun _ => ⟨rfl, rfl⟩⟩
    · next fm hfm =>
      split
      · exact ⟨fun hne => (hne rfl).elim, fun _ => ⟨rfl, rfl⟩⟩
      · next hviw =>
        split
        · exact ⟨fun hne => (hne rfl).elim, fun _ => ⟨rfl, rfl⟩⟩
        · next hmarker =>
          split
          · exact ⟨fun hne => (hne rfl).elim, fun _ => ⟨rfl, rfl⟩⟩
          · next rawPath htr =>
            split
            · exact ⟨fun hne => (hne rfl).elim, fun _ => ⟨rfl, rfl⟩⟩
            · next hres =>
              split
              · exact ⟨fun hne => (hne rfl).elim, fun _ => ⟨rfl, rfl⟩⟩
              · split
                · split
                  · exact ⟨fun hne => (hne rfl).elim, fun _ => ⟨rfl, rfl⟩⟩
                  · exact ⟨fun hne => (hne rfl).elim, fun _ => ⟨rfl, rfl⟩⟩
                · next hsucc =>
                  split
                  · exact ⟨fun hne => (hne rfl).elim, fun _ => ⟨rfl, rfl⟩⟩
                  · next htrim =>
                    split
                    · exact ⟨fun hne => (hne rfl).elim, fun _ => ⟨rfl, rfl⟩⟩
                    · next idx len hhead =>
                      have hconds : ocrNoteConditions st ocr env := by
                        refine ⟨⟨fm, hfm, ?_⟩, ?_, ⟨rawPath, htr, ?_⟩, ?_, ?_, ?_⟩
                        · simpa using hviw
                        · simpa using hmarker
                        · simpa using hres
                        · simpa using hsucc
                        · intro he
                          exact htrim (by rw [he]; rfl)
                        · rw [hhead]
                          rfl
                      split
                      · exact ⟨fun hne => (hne rfl).elim, fun hn => absurd hconds hn⟩
                      · exact ⟨fun _ => ⟨hconds, rfl⟩, fun hn => absurd hconds hn⟩

/-- A note environment whose note is empty. -/
def emptyNoteEnv : NoteEnv :=
  ⟨[], true, [], false, [], none, none, true, [], true, []⟩

/-- The settings used by the witnesses. -/
def demoSettings : Settings :=
  ⟨str "Viwoods", str "Viwoods/Images", true, [str "en-US"], 0⟩

/-- C10 witness: the frame theorem applied to an empty note leaves it
unchanged with no text extracted. -/
theorem ocr_note_frame_witness :
    (runOCROnNote demoSettings offPlatformEnv emptyNoteEnv).2 = emptyNoteEnv.content ∧
    (runOCROnNote demoSettings offPlatformEnv emptyNoteEnv).1.textExtracted = false := by
  refine (ocr_note_frame demoSettings offPlatformEnv emptyNoteEnv).2 ?_
  rintro ⟨⟨fm, hfm, _⟩, _⟩
  rw [show findFM emptyNoteEnv.content = none from rfl] at hfm
  exact Option.noConfusion hfm

end Viwoods
